import Mathlib

/-!
Shallow embedding of the return/advantage estimators in `rl/rollout.py`
(PPO repository).  Real-valued numpy arithmetic is modelled over `ℚ`;
everything in these functions is elementwise in the agent axis `A`, so the
embedding fixes one agent and represents an `[N]`-shaped slice as `ℕ → ℚ`
(and an `[N,H]` slice as `ℕ → ℕ → ℚ`).
-/

namespace PPO

/-- One iteration of a backward scan `for i in reversed(range(N)):
returns[i] = current = f(i, current)`: the new current value is pushed on the
front of the output list (indices are visited in descending order, so the
list built by prepending is the array in index order). -/
def revstep (f : ℕ → ℚ → ℚ) (st : ℚ × List ℚ) (i : ℕ) : ℚ × List ℚ :=
  (f i st.1, f i st.1 :: st.2)

/-- The backward scan `current = seed; for i in reversed(range(k)):
out[i] = current = f(i, current)`, returning the final current value and the
output array (as a list indexed by `0..k-1`). -/
def revloop (f : ℕ → ℚ → ℚ) (seed : ℚ) (k : ℕ) : ℚ × List ℚ :=
  (List.range k).reverse.foldl (revstep f) (seed, [])

/-- Reference form of the backward scan: `revrec f seed m t` is the value the
scan assigns at index `t` when `m` indices (`t, t+1, ..., t+m-1`) remain
before the seed boundary. -/
def revrec (f : ℕ → ℚ → ℚ) (seed : ℚ) : ℕ → ℕ → ℚ
  | 0, _ => seed
  | m + 1, t => f t (revrec f seed m (t + 1))

theorem revrec_shift (f : ℕ → ℚ → ℚ) (s : ℚ) (k : ℕ) :
    ∀ m t, t + m = k → revrec f (f k s) m t = revrec f s (m + 1) t := by
  intro m
  induction m with
  | zero =>
      intro t ht
      subst ht
      simp [revrec]
  | succ m ih =>
      intro t ht
      have h1 : (t + 1) + m = k := by omega
      show f t (revrec f (f k s) m (t + 1)) = f t (revrec f s (m + 1) (t + 1))
      rw [ih (t + 1) h1]

theorem revloop_eq_map (f : ℕ → ℚ → ℚ) :
    ∀ (k : ℕ) (s : ℚ) (l : List ℚ),
      (List.range k).reverse.foldl (revstep f) (s, l) =
        (revrec f s k 0, (List.range k).map (fun t => revrec f s (k - t) t) ++ l) := by
  intro k
  induction k with
  | zero => intro s l; simp [revrec]
  | succ k ih =>
      intro s l
      have hrange : (List.range (k + 1)).reverse = k :: (List.range k).reverse := by
        rw [List.range_succ, List.reverse_append]
        simp
      rw [hrange]
      have hstep : revstep f (s, l) k = (f k s, f k s :: l) := rfl
      rw [List.foldl_cons, hstep, ih (f k s) (f k s :: l), Prod.mk.injEq]
      constructor
      · exact revrec_shift f s k k 0 (by omega)
      · rw [List.range_succ, List.map_append]
        have hmap : (List.range k).map (fun t => revrec f (f k s) (k - t) t) =
            (List.range k).map (fun t => revrec f s (k + 1 - t) t) := by
          apply List.map_congr_left
          intro t ht
          have htk : t < k := List.mem_range.mp ht
          have h1 : t + (k - t) = k := by omega
          have h2 : k + 1 - t = (k - t) + 1 := by omega
          rw [h2]
          exact revrec_shift f s k (k - t) t h1
        rw [hmap]
        simp [revrec]

theorem revloop_snd (f : ℕ → ℚ → ℚ) (seed : ℚ) (k : ℕ) :
    (revloop f seed k).2 = (List.range k).map (fun t => revrec f seed (k - t) t) := by
  unfold revloop
  rw [revloop_eq_map]
  simp

theorem revloop_getD (f : ℕ → ℚ → ℚ) (seed : ℚ) (k t : ℕ) (ht : t < k) :
    (revloop f seed k).2.getD t 0 = revrec f seed (k - t) t := by
  rw [revloop_snd]
  have hlen : t < ((List.range k).map (fun t => revrec f seed (k - t) t)).length := by
    simpa using ht
  rw [List.getD_eq_getElem _ _ hlen]
  simp

/-- `calculate_bootstrapped_returns(rewards, dones, final_value_estimate, gamma)`
from `rl/rollout.py` (lines 77-100), for one agent: `current_return` starts at
`final_value_estimate` and the loop runs
`returns[i] = current_return = rewards[i] + current_return * gamma * (1 - dones[i])`
for `i in reversed(range(N))`.  The numpy code broadcasts a scalar float
`gamma` to every position; we keep `gamma` scalar. -/
def calculate_bootstrapped_returns (rewards dones : ℕ → ℚ)
    (final_value_estimate gamma : ℚ) (N : ℕ) : List ℚ :=
  (revloop (fun i cur => rewards i + cur * gamma * (1 - dones i))
    final_value_estimate N).2

/-- The next-state value used by `calculate_gae`:
`batch_value[t + 1] if t != N - 1 else final_value_estimate`. -/
def gae_value_next (batch_value : ℕ → ℚ) (final_value_estimate : ℚ) (N t : ℕ) : ℚ :=
  if t ≠ N - 1 then batch_value (t + 1) else final_value_estimate

/-- One step of the GAE loop body (`rl/rollout.py` lines 119-125, one agent):
`delta = r[t] + gamma * value_next_t * (1 - terminal[t]) - value[t]` and
`advantage[t] = prev_adv = delta + gamma * lamb * (1 - terminal[t]) * prev_adv`. -/
def gae_step (batch_rewards batch_value : ℕ → ℚ) (final_value_estimate : ℚ)
    (batch_terminal : ℕ → ℚ) (gamma lamb : ℚ) (N : ℕ) (t : ℕ) (prev_adv : ℚ) : ℚ :=
  batch_rewards t +
      gamma * gae_value_next batch_value final_value_estimate N t * (1 - batch_terminal t) -
      batch_value t +
    gamma * lamb * (1 - batch_terminal t) * prev_adv

/-- `calculate_gae` from `rl/rollout.py` (lines 103-128), for one agent, on the
default `normalize=False` path (the optional mean/std normalisation branch is
not modelled): a backward scan of `gae_step` with `prev_adv` seeded at `0`. -/
def calculate_gae (batch_rewards batch_value : ℕ → ℚ) (final_value_estimate : ℚ)
    (batch_terminal : ℕ → ℚ) (gamma lamb : ℚ) (N : ℕ) : List ℚ :=
  (revloop (gae_step batch_rewards batch_value final_value_estimate batch_terminal gamma lamb N)
    0 N).2

/-- The extended value curve
`values = np.concatenate([values, final_value_estimates[None]], axis=0)`:
row `N` is the final value estimate, rows below `N` come from `values`
(rows above `N` are never accessed by the estimators). -/
def vext (values : ℕ → ℕ → ℚ) (final_value_estimates : ℕ → ℚ) (N : ℕ) (t h : ℕ) : ℚ :=
  if t = N then final_value_estimates h else values t h

/-- `calculate_tvf_td` from `rl/rollout.py` (lines 351-387), for one agent:
for `t in range(N)` and `h in range(1, H)` the target is
`rewards[t] + (gamma * (1 - dones[t])) * values_ext[t+1, h-1] if (h-1) > 0 else rewards[t]`;
all other entries of the `[N,H]` output stay at their zero initialisation. -/
def calculate_tvf_td (rewards dones : ℕ → ℚ) (values : ℕ → ℕ → ℚ)
    (final_value_estimates : ℕ → ℚ) (gamma : ℚ) (N H : ℕ) (t h : ℕ) : ℚ :=
  if t < N ∧ 1 ≤ h ∧ h < H then
    rewards t +
      (if h - 1 > 0 then
        gamma * (1 - dones t) * vext values final_value_estimates N (t + 1) (h - 1)
      else 0)
  else 0

/-- The inner reward-collection loop of `calculate_tvf_n_step`
(`rl/rollout.py` lines 270-283), for one agent: after `n` executed steps the
state is `(reward_sum, discount)` with
`reward_sum += discount * rewards[t + n - 1]` then
`discount *= gamma * (1 - dones[t + n - 1])`. -/
def nstep_scan (rewards dones : ℕ → ℚ) (gamma : ℚ) (t : ℕ) : ℕ → ℚ × ℚ
  | 0 => (0, 1)
  | n + 1 =>
      let st := nstep_scan rewards dones gamma t n
      (st.1 + st.2 * rewards (t + n), st.2 * gamma * (1 - dones (t + n)))

/-- The number of executed inner-loop steps of `calculate_tvf_n_step` at
timestep `t`: the loop over `n = 1..n_step` breaks as soon as
`(t + n - 1) >= N` or `n >= H`, so `steps_made = min(n_step, N - t, H - 1)`. -/
def nstep_steps_made (N H n_step t : ℕ) : ℕ :=
  min n_step (min (N - t) (H - 1))

/-- `calculate_tvf_n_step` from `rl/rollout.py` (lines 247-299), for one agent.
For `t in range(N)`: horizons `n = 1..steps_made` receive the running
`reward_sum` written inside the loop, and horizons
`h in steps_made+1 .. H-1` receive
`reward_sum + discount * values_ext[t + steps_made, h - steps_made]`
(the vectorised slice write `returns[t, :, steps_made + 1:] +=
reward_sum[:, None] + discount[:, None] * values[t + steps_made, :, 1:H - steps_made]`).
All other entries stay at their zero initialisation. -/
def calculate_tvf_n_step (rewards dones : ℕ → ℚ) (values : ℕ → ℕ → ℚ)
    (final_value_estimates : ℕ → ℚ) (gamma : ℚ) (N H n_step : ℕ) (t h : ℕ) : ℚ :=
  if t < N ∧ 1 ≤ h ∧ h < H then
    if h ≤ nstep_steps_made N H n_step t then (nstep_scan rewards dones gamma t h).1
    else
      (nstep_scan rewards dones gamma t (nstep_steps_made N H n_step t)).1 +
        (nstep_scan rewards dones gamma t (nstep_steps_made N H n_step t)).2 *
          vext values final_value_estimates N (t + nstep_steps_made N H n_step t)
            (h - nstep_steps_made N H n_step t)
  else 0

/-- The weight-building loop of `calculate_gae_tvf.get_g_weights`
(`rl/rollout.py` lines 177-196): `weight = (1 - lamb)`, then `max_n - 1`
iterations of `weights.append(weight); weight *= lamb`; returns the list so
far and the final running weight. -/
def g_weights_loop (lamb : ℚ) (max_n : ℕ) : List ℚ × ℚ :=
  (List.range (max_n - 1)).foldl (fun st _ => (st.1 ++ [st.2], st.2 * lamb)) ([], 1 - lamb)

/-- `get_g_weights(max_n)` from `calculate_gae_tvf` (`rl/rollout.py`
lines 177-196): the loop-built geometric weights followed by the final entry
`lamb ** max_n`.  The source then asserts `abs(weights.sum() - 1.0) < 1e-6`. -/
def get_g_weights (lamb : ℚ) (max_n : ℕ) : List ℚ :=
  (g_weights_loop lamb max_n).1 ++ [lamb ^ max_n]

/-- The rediscounting loop of `get_rediscounted_value_estimate`
(`rl/rollout.py` lines 3190-3194): over the enumerated horizons, with state
`(prev, discounted_reward_sum)`, each `(i, h)` does
`reward = (values[:, i] - prev) / old_gamma ** h; prev = values[:, i];
discounted_reward_sum += reward * new_gamma ** h`. -/
def rediscount_fold (values : ℕ → ℚ) (old_gamma new_gamma : ℚ) :
    List (ℕ × ℕ) → ℚ × ℚ → ℚ × ℚ
  | [], st => st
  | (i, h) :: rest, st =>
      rediscount_fold values old_gamma new_gamma rest
        (values i, st.2 + (values i - st.1) / old_gamma ^ h * new_gamma ^ h)

/-- `get_rediscounted_value_estimate(values, old_gamma, new_gamma, horizons)`
from `rl/rollout.py` (lines 3166-3197), for one batch element: a `[B,H]`
`values` row is `ℕ → ℚ` and `values[:, -1]` is `values (H - 1)`.  When
`old_gamma == new_gamma` the final column is returned directly; otherwise the
enumerated-horizons loop runs from `prev = 0`, `discounted_reward_sum = 0`.
Horizons are modelled as naturals (the code raises them to `gamma ** h`). -/
def get_rediscounted_value_estimate (values : ℕ → ℚ) (old_gamma new_gamma : ℚ)
    (H : ℕ) (horizons : List ℕ) : ℚ :=
  if old_gamma = new_gamma then values (H - 1)
  else (rediscount_fold values old_gamma new_gamma horizons.enum (0, 0)).2

/-- `np.linspace(a, b, num)` with `endpoint=True` over `ℚ`:
`num` evenly spaced points from `a` to `b` (just `[a]` when `num = 1`). -/
def linspace (a b : ℚ) (num : ℕ) : List ℚ :=
  if num = 1 then [a]
  else (List.range num).map (fun i => a + (b - a) * i / (num - 1))

/-- `np.rint` over `ℚ`: round to the nearest integer, ties to even. -/
def rint (q : ℚ) : ℤ :=
  let f := ⌊q⌋
  let r := q - f
  if r < 1 / 2 then f
  else if r > 1 / 2 then f + 1
  else if f % 2 = 0 then f else f + 1

/-- `samples[0] = 0` on the sorted sample list. -/
def set_first (l : List ℚ) (x : ℚ) : List ℚ :=
  match l with
  | [] => []
  | _ :: rest => x :: rest

/-- `samples[-1] = max_value` on the sorted sample list. -/
def set_last (l : List ℚ) (x : ℚ) : List ℚ :=
  match l with
  | [] => []
  | _ => l.dropLast ++ [x]

/-- The distribution names `generate_horizon_sample` supports. -/
def supported_distributions : List String :=
  ["fixed_linear", "fixed_geometric", "linear", "geometric",
   "saturated_geometric", "saturated_fixed_geometric"]

/-- The raw (pre-sort) float samples produced by the distribution branches of
`generate_horizon_sample` (`rl/rollout.py` lines 2319-2338).  `fixed_linear`
is the exact rational `np.linspace`; the remaining branches call `np.random`
and/or `np.geomspace`/`np.exp` (irrational float computations), which are
supplied by the `draw` oracle, keyed by the distribution name.  Returns
`none` exactly on the `else: raise Exception(...)` branch. -/
def horizon_branch_samples (max_value samples : ℤ) (distribution : String)
    (draw : String → List ℚ) : Option (List ℚ) :=
  if distribution = "fixed_linear" then some (linspace 0 max_value samples.toNat)
  else if distribution = "fixed_geometric" then some (draw distribution)
  else if distribution = "linear" then some (draw distribution)
  else if distribution = "geometric" then some (draw distribution)
  else if distribution = "saturated_geometric" then some (draw distribution)
  else if distribution = "saturated_fixed_geometric" then some (draw distribution)
  else none

/-- `generate_horizon_sample` from `rl/rollout.py` (lines 2299-2344).
If `samples == -1 or samples >= (max_value + 1)` it returns the dense range
`np.arange(0, max_value + 1)` at once.  Otherwise the distribution branches
produce raw samples (`horizon_branch_samples`; an unsupported name raises
`Exception(f"Invalid distribution {distribution}")`, modelled as
`Except.error`), which are sorted, optionally forced to start at `0` and end
at `max_value`, and rounded with `np.rint`. -/
def generate_horizon_sample (max_value samples : ℤ) (distribution : String)
    (force_first_and_last : Bool) (draw : String → List ℚ) : Except String (List ℤ) :=
  if samples = -1 ∨ samples ≥ max_value + 1 then
    Except.ok ((List.range (max_value + 1).toNat).map (fun n : ℕ => (n : ℤ)))
  else
    match horizon_branch_samples max_value samples distribution draw with
    | none => Except.error ("Invalid distribution " ++ distribution)
    | some raw =>
        let sorted := raw.insertionSort (· ≤ ·)
        let forced :=
          if force_first_and_last then set_last (set_first sorted 0) max_value
          else sorted
        Except.ok (forced.map rint)

/-- The `prev` chain of the rediscounting loop: the cumulative value one
sampled horizon earlier, taken as `0` before the first sampled horizon. -/
def prev_value (values : ℕ → ℚ) (i : ℕ) : ℚ :=
  if i = 0 then 0 else values (i - 1)

theorem calculate_bootstrapped_returns_getD (rewards dones : ℕ → ℚ)
    (fv g : ℚ) (N t : ℕ) (ht : t < N) :
    (calculate_bootstrapped_returns rewards dones fv g N).getD t 0 =
      revrec (fun i cur => rewards i + cur * g * (1 - dones i)) fv (N - t) t := by
  unfold calculate_bootstrapped_returns
  exact revloop_getD _ _ _ _ ht

theorem calculate_gae_getD (rewards values : ℕ → ℚ) (fv : ℚ) (term : ℕ → ℚ)
    (g lamb : ℚ) (N t : ℕ) (ht : t < N) :
    (calculate_gae rewards values fv term g lamb N).getD t 0 =
      revrec (gae_step rewards values fv term g lamb N) 0 (N - t) t := by
  unfold calculate_gae
  exact revloop_getD _ _ _ _ ht

/-- **C6**: `calculate_bootstrapped_returns` satisfies the backward recursion
`return[t] = reward[t] + gamma * return[t+1] * (1 - done[t])` for every
`t < N`, seeded at `return[N] = final_value_estimate` (the bootstrap value
used at `t = N - 1`). -/
theorem bootstrapped_returns_recursion (rewards dones : ℕ → ℚ)
    (final_value_estimate gamma : ℚ) (N t : ℕ) (ht : t < N) :
    (calculate_bootstrapped_returns rewards dones final_value_estimate gamma N).getD t 0 =
      rewards t +
        gamma *
          (if t + 1 = N then final_value_estimate
            else (calculate_bootstrapped_returns rewards dones final_value_estimate gamma
                N).getD (t + 1) 0) *
          (1 - dones t) := by
  rw [calculate_bootstrapped_returns_getD rewards dones final_value_estimate gamma N t ht]
  obtain ⟨m, hm⟩ : ∃ m, N - t = m + 1 := ⟨N - t - 1, by omega⟩
  rw [hm]
  show rewards t + revrec _ final_value_estimate m (t + 1) * gamma * (1 - dones t) = _
  by_cases hN : t + 1 = N
  · have hm0 : m = 0 := by omega
    subst hm0
    rw [if_pos hN]
    show rewards t + final_value_estimate * gamma * (1 - dones t) = _
    ring
  · rw [if_neg hN,
      calculate_bootstrapped_returns_getD rewards dones final_value_estimate gamma N (t + 1)
        (by omega)]
    have hm1 : N - (t + 1) = m := by omega
    rw [hm1]
    ring

theorem bootstrapped_returns_recursion_witness :
    (0 : ℕ) < 2 ∧
      (calculate_bootstrapped_returns (fun i => (i : ℚ) + 1) (fun _ => 0) 5 (1 / 2) 2).getD 0 0 =
        (fun i => (i : ℚ) + 1) 0 +
          (1 / 2) *
            (if 0 + 1 = 2 then (5 : ℚ)
              else (calculate_bootstrapped_returns (fun i => (i : ℚ) + 1) (fun _ => 0) 5 (1 / 2)
                  2).getD (0 + 1) 0) *
            (1 - (fun _ => (0 : ℚ)) 0) :=
  ⟨by norm_num,
    bootstrapped_returns_recursion (fun i => (i : ℚ) + 1) (fun _ => 0) 5 (1 / 2) 2 0 (by norm_num)⟩

theorem gae_lambda_one_aux (rewards values dones : ℕ → ℚ) (fv g : ℚ) (N : ℕ) :
    ∀ m t, t < N → N - t = m →
      revrec (gae_step rewards values fv dones g 1 N) 0 m t =
        revrec (fun i cur => rewards i + cur * g * (1 - dones i)) fv m t - values t := by
  intro m
  induction m with
  | zero => intro t ht hm; omega
  | succ m ih =>
      intro t ht hm
      show gae_step rewards values fv dones g 1 N t
            (revrec (gae_step rewards values fv dones g 1 N) 0 m (t + 1)) =
          rewards t +
              revrec (fun i cur => rewards i + cur * g * (1 - dones i)) fv m (t + 1) * g *
                (1 - dones t) -
            values t
      by_cases hN : t + 1 = N
      · have hm0 : m = 0 := by omega
        subst hm0
        unfold gae_step gae_value_next
        rw [if_neg (show ¬t ≠ N - 1 by omega)]
        simp only [revrec]
        ring
      · rw [ih (t + 1) (by omega) (by omega)]
        unfold gae_step gae_value_next
        rw [if_pos (show t ≠ N - 1 by omega)]
        ring

/-- **C3**: with `lamb = 1` (and the default `normalize=False`),
`calculate_gae` equals, elementwise at every timestep `t < N`,
`calculate_bootstrapped_returns(rewards, dones, final_value_estimate, gamma)[t]
- values[t]` (telescoping sum). -/
theorem gae_lambda_one_eq_bootstrapped_minus_value (rewards values dones : ℕ → ℚ)
    (final_value_estimate gamma : ℚ) (N t : ℕ) (ht : t < N) :
    (calculate_gae rewards values final_value_estimate dones gamma 1 N).getD t 0 =
      (calculate_bootstrapped_returns rewards dones final_value_estimate gamma N).getD t 0 -
        values t := by
  rw [calculate_gae_getD rewards values final_value_estimate dones gamma 1 N t ht,
    calculate_bootstrapped_returns_getD rewards dones final_value_estimate gamma N t ht]
  exact gae_lambda_one_aux rewards values dones final_value_estimate gamma N (N - t) t ht rfl

theorem gae_lambda_one_eq_bootstrapped_minus_value_witness :
    (0 : ℕ) < 2 ∧
      (calculate_gae (fun i => (i : ℚ) + 1) (fun i => (i : ℚ) * 2) 5 (fun _ => 0) (1 / 2) 1
          2).getD 0 0 =
        (calculate_bootstrapped_returns (fun i => (i : ℚ) + 1) (fun _ => 0) 5 (1 / 2) 2).getD 0 0 -
          (fun i => (i : ℚ) * 2) 0 :=
  ⟨by norm_num,
    gae_lambda_one_eq_bootstrapped_minus_value (fun i => (i : ℚ) + 1) (fun i => (i : ℚ) * 2)
      (fun _ => 0) 5 (1 / 2) 2 0 (by norm_num)⟩

theorem gae_step_done (rewards values : ℕ → ℚ) (fv : ℚ) (term : ℕ → ℚ)
    (g lamb : ℚ) (N t : ℕ) (prev : ℚ) (hd : term t = 1) :
    gae_step rewards values fv term g lamb N t prev = rewards t - values t := by
  unfold gae_step
  rw [hd]
  ring

/-- **C4**: done-flag boundary.  If `dones[t] = 1` then two runs of
`calculate_gae` (resp. `calculate_tvf_td`) that differ only in the
next-timestep value estimate — `values[t+1]`, or the final value estimate when
`t + 1 = N` — produce identical output at timestep `t` (at every horizon `h`
for the TD case): the done flag zeroes every discounted continuation across
the episode boundary. -/
theorem done_flag_zeroes_next_value (rewards values values2 dones : ℕ → ℚ)
    (fv fv2 g lamb : ℚ) (tvf_values tvf_values2 : ℕ → ℕ → ℚ) (tvf_fv tvf_fv2 : ℕ → ℚ)
    (N H t h : ℕ) (ht : t < N) (hdone : dones t = 1)
    (hv : ∀ j, j ≠ t + 1 → values j = values2 j)
    (hfv : t + 1 ≠ N → fv = fv2)
    (htv : ∀ j k, j ≠ t + 1 → tvf_values j k = tvf_values2 j k)
    (htfv : t + 1 ≠ N → tvf_fv = tvf_fv2) :
    (calculate_gae rewards values fv dones g lamb N).getD t 0 =
        (calculate_gae rewards values2 fv2 dones g lamb N).getD t 0 ∧
      calculate_tvf_td rewards dones tvf_values tvf_fv g N H t h =
        calculate_tvf_td rewards dones tvf_values2 tvf_fv2 g N H t h := by
  constructor
  · rw [calculate_gae_getD rewards values fv dones g lamb N t ht,
      calculate_gae_getD rewards values2 fv2 dones g lamb N t ht]
    obtain ⟨m, hm⟩ : ∃ m, N - t = m + 1 := ⟨N - t - 1, by omega⟩
    rw [hm]
    show gae_step rewards values fv dones g lamb N t _ =
      gae_step rewards values2 fv2 dones g lamb N t _
    rw [gae_step_done rewards values fv dones g lamb N t _ hdone,
      gae_step_done rewards values2 fv2 dones g lamb N t _ hdone,
      hv t (by omega)]
  · unfold calculate_tvf_td
    rw [hdone]
    simp

theorem done_flag_zeroes_next_value_witness :
    ((0 : ℕ) < 1 ∧ (fun _ => (1 : ℚ)) 0 = 1) ∧
      ((calculate_gae (fun _ => 2) (fun _ => 3) 5 (fun _ => 1) (9 / 10) (1 / 2) 1).getD 0 0 =
          (calculate_gae (fun _ => 2) (fun j => if j = 1 then 100 else 3) 9 (fun _ => 1) (9 / 10)
              (1 / 2) 1).getD 0 0 ∧
        calculate_tvf_td (fun _ => 2) (fun _ => 1) (fun _ _ => 4) (fun _ => 7) (9 / 10) 1 3 0 2 =
          calculate_tvf_td (fun _ => 2) (fun _ => 1) (fun j _ => if j = 1 then 50 else 4)
            (fun _ => 11) (9 / 10) 1 3 0 2) :=
  ⟨⟨by norm_num, rfl⟩,
    done_flag_zeroes_next_value (fun _ => 2) (fun _ => 3) (fun j => if j = 1 then 100 else 3)
      (fun _ => 1) 5 9 (9 / 10) (1 / 2) (fun _ _ => 4) (fun j _ => if j = 1 then 50 else 4)
      (fun _ => 7) (fun _ => 11) 1 3 0 2 (by norm_num) rfl
      (by intro j hj; simp [hj]) (by intro hc; exact absurd rfl hc)
      (by intro j k hj; simp [hj]) (by intro hc; exact absurd rfl hc)⟩

/-- **C2 counterexample**: at horizon `h = 1` the code's bootstrap is `0`, not
the horizon-0 entry of the next value curve.  With `N = 1`, `H = 2`,
`rewards[0] = 1`, `dones[0] = 0`, `gamma = 1` and a final value estimate whose
horizon-0 entry is `5`, the code returns `1` at `(t, h) = (0, 1)` while the
claimed formula `reward[t] + gamma * (1 - done[t]) * value[t+1, h-1]` gives
`6`. -/
theorem tvf_td_horizon_one_counterexample :
    calculate_tvf_td (fun _ => 1) (fun _ => 0) (fun _ _ => 0) (fun _ => 5) 1 1 2 0 1 = 1 ∧
      (fun _ => (1 : ℚ)) 0 +
          1 * (1 - (fun _ => (0 : ℚ)) 0) *
            vext (fun _ _ => (0 : ℚ)) (fun _ => (5 : ℚ)) 1 (0 + 1) (1 - 1) = 6 ∧
      (1 : ℚ) ≠ 6 := by
  refine ⟨?_, ?_, by norm_num⟩
  · simp [calculate_tvf_td]
  · norm_num [vext]

/-- **C2 (amended)**: for every `t < N` and horizon `1 ≤ h < H`,
`calculate_tvf_td` returns
`reward[t] + gamma * (1 - done[t]) * value_ext[t+1, h-1]` when `h ≥ 2`,
and `reward[t]` alone when `h = 1` (the bootstrap is taken as zero there; the
horizon-0 entry of the next value curve is not read). -/
theorem tvf_td_target_characterization (rewards dones : ℕ → ℚ) (values : ℕ → ℕ → ℚ)
    (final_value_estimates : ℕ → ℚ) (gamma : ℚ) (N H t h : ℕ)
    (ht : t < N) (h1 : 1 ≤ h) (hH : h < H) :
    calculate_tvf_td rewards dones values final_value_estimates gamma N H t h =
      rewards t +
        (if 2 ≤ h then
          gamma * (1 - dones t) * vext values final_value_estimates N (t + 1) (h - 1)
        else 0) := by
  unfold calculate_tvf_td
  rw [if_pos ⟨ht, h1, hH⟩]
  by_cases h2 : 2 ≤ h
  · rw [if_pos (show h - 1 > 0 by omega), if_pos h2]
  · rw [if_neg (show ¬h - 1 > 0 by omega), if_neg h2]

theorem tvf_td_target_characterization_witness :
    ((0 : ℕ) < 1 ∧ (1 : ℕ) ≤ 2 ∧ (2 : ℕ) < 3) ∧
      calculate_tvf_td (fun _ => 1) (fun _ => 0) (fun _ _ => 0) (fun k => 5 + k) 1 1 3 0 2 =
        (fun _ => (1 : ℚ)) 0 +
          (if 2 ≤ 2 then
            1 * (1 - (fun _ => (0 : ℚ)) 0) *
              vext (fun _ _ => (0 : ℚ)) (fun k => (5 : ℚ) + k) 1 (0 + 1) (2 - 1)
          else 0) :=
  ⟨⟨by norm_num, by norm_num, by norm_num⟩,
    tvf_td_target_characterization (fun _ => 1) (fun _ => 0) (fun _ _ => 0) (fun k => (5 : ℚ) + k)
      1 1 3 0 2 (by norm_num) (by norm_num) (by norm_num)⟩

theorem nstep_scan_one (rewards dones : ℕ → ℚ) (g : ℚ) (t : ℕ) :
    nstep_scan rewards dones g t 1 = (rewards t, g * (1 - dones t)) := by
  simp [nstep_scan]

/-- **C7**: `calculate_tvf_n_step` with `n_step = 1` coincides with
`calculate_tvf_td` on every input, at every timestep and horizon (including
`H = 1`, where both outputs are identically zero). -/
theorem tvf_n_step_one_eq_tvf_td (rewards dones : ℕ → ℚ) (values : ℕ → ℕ → ℚ)
    (final_value_estimates : ℕ → ℚ) (gamma : ℚ) (N H t h : ℕ) :
    calculate_tvf_n_step rewards dones values final_value_estimates gamma N H 1 t h =
      calculate_tvf_td rewards dones values final_value_estimates gamma N H t h := by
  unfold calculate_tvf_n_step calculate_tvf_td
  by_cases hreg : t < N ∧ 1 ≤ h ∧ h < H
  · rw [if_pos hreg, if_pos hreg]
    obtain ⟨ht, h1, hH⟩ := hreg
    have hm : nstep_steps_made N H 1 t = 1 := by
      unfold nstep_steps_made
      omega
    rw [hm]
    by_cases hh : h ≤ 1
    · have hh1 : h = 1 := by omega
      subst hh1
      rw [if_pos (by omega), nstep_scan_one]
      simp
    · rw [if_neg hh, nstep_scan_one]
      rw [if_pos (show h - 1 > 0 by omega)]
  · rw [if_neg hreg, if_neg hreg]

/-- **C1**: the internal assertion of `get_g_weights` can fail.  At
`lamb = 1/2` and `max_n = 1` (reached inside `calculate_gae_tvf` at
`t = N - 1`) the built weight vector is `[lamb ** 1] = [1/2]`: the final
entry is `lamb ** max_n` although the mass remaining after the geometric
prefix is `lamb ** (max_n - 1)`, so the weights sum to `1/2`, not `1`, and
`abs(weights.sum() - 1.0) < 1e-6` is violated. -/
theorem gae_tvf_g_weights_assert_fails :
    get_g_weights (1 / 2) 1 = [1 / 2] ∧
      (get_g_weights (1 / 2) 1).sum = 1 / 2 ∧
      ¬|(get_g_weights (1 / 2) 1).sum - 1| < 1 / 1000000 := by
  refine ⟨?_, ?_, ?_⟩
  · norm_num [get_g_weights, g_weights_loop]
  · norm_num [get_g_weights, g_weights_loop]
  · have hsum : (get_g_weights (1 / 2) 1).sum = 1 / 2 := by
      norm_num [get_g_weights, g_weights_loop]
    rw [hsum, show (1 / 2 - 1 : ℚ) = -(1 / 2) by norm_num, abs_neg,
      abs_of_nonneg (by norm_num : (0 : ℚ) ≤ 1 / 2)]
    norm_num

theorem rediscount_fold_spec (values : ℕ → ℚ) (og ng : ℚ) :
    ∀ (hs : List ℕ) (j : ℕ) (a : ℚ),
      (rediscount_fold values og ng (hs.enumFrom j) (prev_value values j, a)).2 =
        a + ∑ k ∈ Finset.range hs.length,
          (values (j + k) - prev_value values (j + k)) / og ^ hs.getD k 0 *
            ng ^ hs.getD k 0 := by
  intro hs
  induction hs with
  | nil => intro j a; simp [rediscount_fold]
  | cons hh tt ih =>
      intro j a
      calc (rediscount_fold values og ng ((hh :: tt).enumFrom j) (prev_value values j, a)).2
          = (rediscount_fold values og ng (tt.enumFrom (j + 1))
              (prev_value values (j + 1),
                a + (values j - prev_value values j) / og ^ hh * ng ^ hh)).2 := rfl
        _ = (a + (values j - prev_value values j) / og ^ hh * ng ^ hh) +
              ∑ k ∈ Finset.range tt.length,
                (values (j + 1 + k) - prev_value values (j + 1 + k)) / og ^ tt.getD k 0 *
                  ng ^ tt.getD k 0 := ih (j + 1) _
        _ = a + ∑ k ∈ Finset.range (hh :: tt).length,
              (values (j + k) - prev_value values (j + k)) / og ^ (hh :: tt).getD k 0 *
                ng ^ (hh :: tt).getD k 0 := by
            rw [List.length_cons, Finset.sum_range_succ']
            simp only [List.getD_cons_succ, List.getD_cons_zero, Nat.add_zero]
            have harr : ∀ k, j + 1 + k = j + (k + 1) := by omega
            simp only [harr]
            ring

/-- **C5**: for `old_gamma ≠ new_gamma`, `get_rediscounted_value_estimate`
returns the sum over `i = 0..H-1` of
`(values[i] - values[i-1]) / old_gamma ** h_i * new_gamma ** h_i`, where the
cumulative value before the first sampled horizon is taken as `0`
(`prev = 0` initially). -/
theorem rediscounted_value_estimate_closed_form (values : ℕ → ℚ) (old_gamma new_gamma : ℚ)
    (H : ℕ) (horizons : List ℕ) (hne : old_gamma ≠ new_gamma) (hlen : horizons.length = H) :
    get_rediscounted_value_estimate values old_gamma new_gamma H horizons =
      ∑ i ∈ Finset.range H,
        (values i - (if i = 0 then 0 else values (i - 1))) / old_gamma ^ horizons.getD i 0 *
          new_gamma ^ horizons.getD i 0 := by
  unfold get_rediscounted_value_estimate
  rw [if_neg hne]
  calc (rediscount_fold values old_gamma new_gamma horizons.enum (0, 0)).2
      = (rediscount_fold values old_gamma new_gamma (horizons.enumFrom 0)
          (prev_value values 0, 0)).2 := rfl
    _ = 0 + ∑ k ∈ Finset.range horizons.length,
          (values (0 + k) - prev_value values (0 + k)) / old_gamma ^ horizons.getD k 0 *
            new_gamma ^ horizons.getD k 0 :=
        rediscount_fold_spec values old_gamma new_gamma horizons 0 0
    _ = _ := by
        rw [hlen]
        simp only [Nat.zero_add, zero_add, prev_value]

theorem rediscounted_value_estimate_closed_form_witness :
    ((2 : ℚ) ≠ 3 ∧ ([0, 2] : List ℕ).length = 2) ∧
      get_rediscounted_value_estimate (fun i => (i : ℚ) + 1) 2 3 2 [0, 2] =
        ∑ i ∈ Finset.range 2,
          (((i : ℚ) + 1) - (if i = 0 then 0 else ((i - 1 : ℕ) : ℚ) + 1)) /
              (2 : ℚ) ^ ([0, 2] : List ℕ).getD i 0 *
            (3 : ℚ) ^ ([0, 2] : List ℕ).getD i 0 :=
  ⟨⟨by norm_num, rfl⟩,
    rediscounted_value_estimate_closed_form (fun i => (i : ℚ) + 1) 2 3 2 [0, 2] (by norm_num) rfl⟩

/-- **C8**: rediscounting with `new_gamma == old_gamma` returns exactly the
final column `values[:, -1]`, for any horizon list. -/
theorem rediscount_same_gamma_identity (values : ℕ → ℚ) (gamma : ℚ) (H : ℕ)
    (horizons : List ℕ) :
    get_rediscounted_value_estimate values gamma gamma H horizons = values (H - 1) := by
  unfold get_rediscounted_value_estimate
  rw [if_pos rfl]

/-- **C9**: whenever `samples == -1` or `samples > max_value + 1`,
`generate_horizon_sample` returns the dense integer range `[0, max_value]`
(length `max_value + 1`), regardless of the distribution name, the
`force_first_and_last` flag, and the random draws. -/
theorem horizon_sample_dense_range (max_value samples : ℤ) (distribution : String)
    (force_first_and_last : Bool) (draw : String → List ℚ)
    (hs : samples = -1 ∨ samples > max_value + 1) :
    generate_horizon_sample max_value samples distribution force_first_and_last draw =
        Except.ok ((List.range (max_value + 1).toNat).map (fun n : ℕ => (n : ℤ))) ∧
      ((List.range (max_value + 1).toNat).map (fun n : ℕ => (n : ℤ))).length =
        (max_value + 1).toNat := by
  constructor
  · unfold generate_horizon_sample
    rw [if_pos (by omega)]
  · simp only [List.length_map, List.length_range]

theorem horizon_sample_dense_range_witness :
    ((-1 : ℤ) = -1 ∨ (-1 : ℤ) > 3 + 1) ∧
      (generate_horizon_sample 3 (-1) "linear" false (fun _ => []) =
          Except.ok ((List.range ((3 : ℤ) + 1).toNat).map (fun n : ℕ => (n : ℤ))) ∧
        ((List.range ((3 : ℤ) + 1).toNat).map (fun n : ℕ => (n : ℤ))).length =
          ((3 : ℤ) + 1).toNat) :=
  ⟨Or.inl rfl, horizon_sample_dense_range 3 (-1) "linear" false (fun _ => []) (Or.inl rfl)⟩

/-- **C10 counterexample**: a call that takes the dense-range shortcut never
reaches the distribution check, so an unsupported distribution name does NOT
raise: `generate_horizon_sample(max_value=3, samples=-1,
distribution="bogus")` silently returns `[0, 1, 2, 3]`. -/
theorem horizon_sample_invalid_dist_shortcut_ok :
    generate_horizon_sample 3 (-1) "bogus" false (fun _ => ([] : List ℚ)) =
      Except.ok [0, 1, 2, 3] := by
  rfl

/-- **C10 (amended)**: whenever the dense-range shortcut does not apply
(`samples ≠ -1` and `samples < max_value + 1`), a distribution name outside
the six supported ones makes `generate_horizon_sample` fail loudly with
`Exception(f"Invalid distribution {distribution}")` instead of returning a
result. -/
theorem horizon_sample_invalid_dist_error (max_value samples : ℤ) (distribution : String)
    (force_first_and_last : Bool) (draw : String → List ℚ)
    (h1 : samples ≠ -1) (h2 : samples < max_value + 1)
    (h3 : distribution ∉ supported_distributions) :
    generate_horizon_sample max_value samples distribution force_first_and_last draw =
      Except.error ("Invalid distribution " ++ distribution) := by
  unfold generate_horizon_sample
  rw [if_neg (by omega)]
  have hb : horizon_branch_samples max_value samples distribution draw = none := by
    unfold horizon_branch_samples
    simp only [supported_distributions, List.mem_cons, List.not_mem_nil, or_false,
      not_or] at h3
    obtain ⟨n1, n2, n3, n4, n5, n6⟩ := h3
    rw [if_neg n1, if_neg n2, if_neg n3, if_neg n4, if_neg n5, if_neg n6]
  rw [hb]

theorem horizon_sample_invalid_dist_error_witness :
    ((2 : ℤ) ≠ -1 ∧ (2 : ℤ) < 5 + 1 ∧ "bogus" ∉ supported_distributions) ∧
      generate_horizon_sample 5 2 "bogus" true (fun _ => [1, 3]) =
        Except.error ("Invalid distribution " ++ "bogus") :=
  ⟨⟨by norm_num, by norm_num, by simp [supported_distributions]⟩,
    horizon_sample_invalid_dist_error 5 2 "bogus" true (fun _ => [1, 3]) (by norm_num)
      (by norm_num) (by simp [supported_distributions])⟩

end PPO
